import Mathlib

/-!
Verification of the cadabra2 action/command layer (src/client_server/Actions.hh)
and the installation-prefix utility (src/core/InstallPrefix.cc).

`Actions.hh` declares the command classes, their fields and their overrides;
the member-function bodies live in a .cc file that is not part of this
source snapshot.  Where a body is missing, the corresponding Lean definition
is modelled from the specification (its doc comment says so explicitly) while
keeping the exact class/field structure declared in the header.
`InstallPrefix.cc` is present in full and is embedded faithfully.
-/

namespace Cadabra

/-- Cell kinds.  `DataCell.hh` is not in the snapshot; the spec needs at
least the distinction between input cells and other cells (PositionCursor
synthesizes a *new input cell*).  Modelled from the spec. -/
inductive CellType where
  | input
  | output
  | textcell
deriving DecidableEq, Repr

/-- The atomic content unit.  Mirrors the spec data model: a process-unique
stable `id`, a content payload `textbuf`, a cell kind, a running-status flag
and a set of referenced variable names (a `std::set<std::string>` in the
header, modelled as a list of names). -/
structure DataCell where
  id        : Nat
  textbuf   : String
  cell_type : CellType
  running   : Bool
  variables_referenced : List String
deriving DecidableEq, Repr

/-- The document tree: an ordered tree of `DataCell`s (the cadabra `DTree`).
Each node holds one cell and an ordered list of children. -/
inductive DTree where
  | node (cell : DataCell) (children : List DTree) : DTree

namespace DTree

def cell : DTree → DataCell
  | .node c _ => c

def children : DTree → List DTree
  | .node _ ch => ch

end DTree

/-- A live position in the tree, modelled as the list of child indices from
the root ("path").  This plays the role of a `DTree::iterator`. -/
abbrev TreePath := List Nat

/-- Subtree at a path (none if the path dangles). -/
def getAt : DTree → TreePath → Option DTree
  | t, [] => some t
  | .node _ ch, i :: p =>
      match ch[i]? with
      | some c => getAt c p
      | none => none

/-- Rewrite the subtree at a path with a total node-level function
(none if the path dangles). -/
def updateAt (f : DTree → DTree) : DTree → TreePath → Option DTree
  | t, [] => some (f t)
  | .node c ch, i :: p =>
      match ch[i]? with
      | some child =>
          match updateAt f child p with
          | some child2 => some (.node c (ch.set i child2))
          | none => none
      | none => none

/-- Resolve a stable cell id to a live position (pre-order, first match).
Modelled from the spec: the `DocumentThread` id-to-iterator resolution used
by `ActionBase::execute` is not in the snapshot. -/
def findPath (i : Nat) : DTree → Option TreePath
  | .node c ch =>
      if c.id = i then some []
      else go ch 0
where
  go : List DTree → Nat → Option TreePath
  | [], _ => none
  | t :: ts, k =>
      match findPath i t with
      | some p => some (k :: p)
      | none => go ts (k + 1)

/-- Remove the `n`-th child of the node addressed by `pp`. -/
def removeChild (n : Nat) : DTree → DTree
  | .node c ch => .node c (ch.eraseIdx n)

/-- Insert `sub` as the `n`-th child of a node. -/
def insertChild (n : Nat) (sub : DTree) : DTree → DTree
  | .node c ch => .node c (ch.insertIdx n sub)

/-- Detach the `n`-th child of the node at parent path `pp`, returning the
remaining tree and the detached subtree.  Fails if the parent path dangles or
the child does not exist. -/
def removeChildAt (t : DTree) (pp : TreePath) (n : Nat) :
    Option (DTree × DTree) :=
  match getAt t (pp ++ [n]), updateAt (removeChild n) t pp with
  | some sub, some t2 => some (t2, sub)
  | _, _ => none

/-- Reinsert a detached subtree as the `n`-th child of the node at `pp`. -/
def insertChildAt (t : DTree) (pp : TreePath) (n : Nat) (sub : DTree) :
    Option DTree :=
  updateAt (insertChild n sub) t pp

/-- Presentation-layer (GUIBase) calls made by actions.  Modelled from the
spec §6: each command makes at most a bounded number of synchronous calls
into the presentation collaborator; we log them. -/
inductive GuiEvent where
  | add_cell (id : Nat)
  | remove_cell (id : Nat)
  | update_cell (id : Nat)
  | position_cursor (id : Nat)
  | document_replaced
deriving DecidableEq, Repr

/-- Document-session state: the tree plus the log of presentation calls. -/
structure Doc where
  tree : DTree
  gui  : List GuiEvent

/-- Error taxonomy of spec §7. -/
inductive ActionError where
  | referenceNotFound
  | invalidRange
  | internalError
deriving DecidableEq, Repr

/-- Position enum of `ActionAddCell` in the header. -/
inductive AddCellPosition where
  | before
  | after
  | child
deriving DecidableEq, Repr

/-- Position enum of `ActionPositionCursor` in the header (`in` is a Lean
keyword, rendered `in_cell`). -/
inductive CursorPosition where
  | in_cell
  | next
  | previous
deriving DecidableEq, Repr

/-- Wrap a `DataCell` as a leaf tree node. -/
def DTree.leaf (c : DataCell) : DTree := .node c []

def setTextbuf (s : String) : DTree → DTree
  | .node c ch => .node { c with textbuf := s } ch

def setRunning (b : Bool) : DTree → DTree
  | .node c ch => .node { c with running := b } ch

def setVariables (vs : List String) : DTree → DTree
  | .node c ch => .node { c with variables_referenced := vs } ch

/-- The `std::string::insert(pos, t)` operation on character lists. -/
def strInsert (s : String) (pos : Nat) (t : String) : String :=
  String.mk (s.data.take pos ++ t.data ++ s.data.drop pos)

/-- The `std::string::erase(from, to - from)` operation: remove `[from, to)`. -/
def strErase (s : String) (from_pos to_pos : Nat) : String :=
  String.mk (s.data.take from_pos ++ s.data.drop to_pos)

/-- The `std::string::substr(from, to - from)` operation: the range `[from, to)`. -/
def strSub (s : String) (from_pos to_pos : Nat) : String :=
  String.mk ((s.data.drop from_pos).take (to_pos - from_pos))

/-- Id of the first input cell among `l.drop k` (used by PositionCursor
`next`: "is there a following input cell?"). -/
def firstInputAfter (l : List DTree) (k : Nat) : Option Nat :=
  match (l.drop k).find? (fun t => t.cell.cell_type == CellType.input) with
  | some t => some t.cell.id
  | none => none

/-- The closed set of command variants of `Actions.hh`, one constructor per
class, carrying both the constructor arguments and the private state fields
declared in the header (e.g. `removed_tree`, `reference_parent_cell`,
`reference_child_index` for `ActionRemoveCell`).  Iterators
(`DTree::iterator` fields such as `newref`, `this_cell`) are modelled as
tree paths. -/
inductive Action where
  | addCell (newcell : DataCell) (ref_id : Nat) (pos : AddCellPosition)
      (newref : TreePath) (child_num : Nat)
      (is_replacement : Bool) (is_input_form : Bool)
  | positionCursor (ref_id : Nat) (pos : CursorPosition) (fresh_id : Nat)
      (needed_new_cell_with_id : Option Nat) (newref : TreePath)
  | setRunStatus (ref_id : Nat) (new_running : Bool) (was_running : Bool)
      (this_cell : TreePath)
  | setVariableList (ref_id : Nat) (new_variables : List String)
      (this_cell : TreePath)
  | removeCell (ref_id : Nat) (removed_tree : Option DTree)
      (reference_parent_cell : TreePath) (reference_child_index : Nat)
  | replaceCell (ref_id : Nat)
  | splitCell (ref_id : Nat) (newref : TreePath)
  | runCell (run_all_cells : Bool) (ref_id : Nat)
  | openNotebook (notebook_name : String)
  | insertText (ref_id : Nat) (insert_pos : Nat) (text : String)
      (this_cell : TreePath)
  | completeText (ref_id : Nat) (insert_pos : Nat) (text : String)
      (alternative_ : Nat) (this_cell : TreePath)
  | eraseText (ref_id : Nat) (from_pos : Nat) (to_pos : Nat)
      (removed_text : String) (this_cell : TreePath)

/-- Undoability: `ActionBase::undoable` and its overrides.  The header declares the
override set: `ActionAddCell`, `ActionSetRunStatus`, `ActionSetVariableList`,
`ActionReplaceCell`, `ActionRunCell`, `ActionOpen` override `undoable`;
their return values are modelled from the spec §4 (default true; the listed
variants false, AddCell false exactly under its two suppression flags). -/
def Action.undoable : Action → Bool
  | .addCell _ _ _ _ _ is_replacement is_input_form =>
      !(is_replacement || is_input_form)
  | .setRunStatus .. => false
  | .setVariableList .. => false
  | .replaceCell _ => false
  | .runCell .. => false
  | .openNotebook _ => false
  | _ => true

/-- The stable id an action targets (`ActionBase::ref_id`). -/
def Action.refId : Action → Nat
  | .addCell _ ref_id _ _ _ _ _ => ref_id
  | .positionCursor ref_id _ _ _ _ => ref_id
  | .setRunStatus ref_id _ _ _ => ref_id
  | .setVariableList ref_id _ _ => ref_id
  | .removeCell ref_id _ _ _ => ref_id
  | .replaceCell ref_id => ref_id
  | .splitCell ref_id _ => ref_id
  | .runCell _ ref_id => ref_id
  | .openNotebook _ => 0
  | .insertText ref_id _ _ _ => ref_id
  | .completeText ref_id _ _ _ _ => ref_id
  | .eraseText ref_id _ _ _ _ => ref_id

/-- Whether the variant performs the base-class id resolution ("a variant
without a natural single target may skip this resolution", spec §4.1):
run-all `ActionRunCell` and `ActionOpen` have no target cell. -/
def Action.usesRef : Action → Bool
  | .openNotebook _ => false
  | .runCell run_all_cells _ => !run_all_cells
  | _ => true

/-- Set the running flag on every cell of the tree (run-all). -/
def markAllRunning : DTree → DTree
  | .node c ch => .node { c with running := true } (go ch)
where
  go : List DTree → List DTree
  | [] => []
  | t :: ts => markAllRunning t :: go ts

/-- Modelled from the spec: the `execute` member-function bodies of the
action classes are not part of the source snapshot (only the declarations
in `Actions.hh` are).  Each branch follows spec §4 and §7, keeping the
state fields declared in the header.  Every variant with a target cell
performs the base-class resolution first ("resolve, then mutate") and
raises `referenceNotFound` before any mutation when `ref_id` does not
resolve; text commands detect `invalidRange` before mutating.  The result
is the action with its captured undo state plus the new document state.

Two variants have no modellable mutation: `ActionReplaceCell` declares no
replacement payload in the header, and `ActionSplitCell`'s split offset is
the GUI cursor position, which lives outside the document model; for these
only resolution and the presentation call are modelled. -/
def exec (a : Action) (d : Doc) : Except ActionError (Action × Doc) :=
  match a with
  | .addCell newcell ref_id pos _ _ is_replacement is_input_form =>
      match findPath ref_id d.tree with
      | none => .error .referenceNotFound
      | some p =>
          match pos with
          | .child =>
              match getAt d.tree p with
              | none => .error .internalError
              | some s =>
                  let n := s.children.length
                  match insertChildAt d.tree p n (.leaf newcell) with
                  | some t2 =>
                      .ok (.addCell newcell ref_id pos (p ++ [n]) n
                             is_replacement is_input_form,
                           { tree := t2, gui := d.gui ++ [.add_cell newcell.id] })
                  | none => .error .internalError
          | q =>
              if hp : p = [] then .error .internalError
              else
                let pp := p.dropLast
                let i := p.getLast hp
                let n := if q = .after then i + 1 else i
                match insertChildAt d.tree pp n (.leaf newcell) with
                | some t2 =>
                    .ok (.addCell newcell ref_id pos (pp ++ [n]) n
                           is_replacement is_input_form,
                         { tree := t2, gui := d.gui ++ [.add_cell newcell.id] })
                | none => .error .internalError
  | .positionCursor ref_id pos fresh_id _ _ =>
      match findPath ref_id d.tree with
      | none => .error .referenceNotFound
      | some p =>
          match pos with
          | .next =>
              if hp : p = [] then .error .internalError
              else
                let pp := p.dropLast
                let i := p.getLast hp
                match getAt d.tree pp with
                | none => .error .internalError
                | some parent =>
                    match firstInputAfter parent.children (i + 1) with
                    | some cid =>
                        .ok (.positionCursor ref_id pos fresh_id none [],
                             { tree := d.tree,
                               gui := d.gui ++ [.position_cursor cid] })
                    | none =>
                        let c : DataCell :=
                          { id := fresh_id, textbuf := "", cell_type := .input,
                            running := false, variables_referenced := [] }
                        match insertChildAt d.tree pp (i + 1) (.leaf c) with
                        | some t2 =>
                            .ok (.positionCursor ref_id pos fresh_id
                                   (some fresh_id) (pp ++ [i + 1]),
                                 { tree := t2,
                                   gui := d.gui ++ [.add_cell fresh_id,
                                                    .position_cursor fresh_id] })
                        | none => .error .internalError
          | _ =>
              .ok (.positionCursor ref_id pos fresh_id none [],
                   { tree := d.tree, gui := d.gui ++ [.position_cursor ref_id] })
  | .setRunStatus ref_id new_running _ _ =>
      match findPath ref_id d.tree with
      | none => .error .referenceNotFound
      | some p =>
          match getAt d.tree p with
          | none => .error .internalError
          | some s =>
              match updateAt (setRunning new_running) d.tree p with
              | some t2 =>
                  .ok (.setRunStatus ref_id new_running s.cell.running p,
                       { tree := t2, gui := d.gui ++ [.update_cell ref_id] })
              | none => .error .internalError
  | .setVariableList ref_id new_variables _ =>
      match findPath ref_id d.tree with
      | none => .error .referenceNotFound
      | some p =>
          match getAt d.tree p with
          | none => .error .internalError
          | some s =>
              match updateAt (setVariables new_variables) d.tree p with
              | some t2 =>
                  .ok (.setVariableList ref_id s.cell.variables_referenced p,
                       { tree := t2, gui := d.gui })
              | none => .error .internalError
  | .removeCell ref_id _ _ _ =>
      match findPath ref_id d.tree with
      | none => .error .referenceNotFound
      | some p =>
          if hp : p = [] then .error .internalError
          else
            let pp := p.dropLast
            let n := p.getLast hp
            match removeChildAt d.tree pp n with
            | some (t2, sub) =>
                .ok (.removeCell ref_id (some sub) pp n,
                     { tree := t2, gui := d.gui ++ [.remove_cell ref_id] })
            | none => .error .internalError
  | .replaceCell ref_id =>
      match findPath ref_id d.tree with
      | none => .error .referenceNotFound
      | some _ =>
          .ok (.replaceCell ref_id,
               { tree := d.tree, gui := d.gui ++ [.update_cell ref_id] })
  | .splitCell ref_id _ =>
      match findPath ref_id d.tree with
      | none => .error .referenceNotFound
      | some p =>
          .ok (.splitCell ref_id p,
               { tree := d.tree, gui := d.gui ++ [.update_cell ref_id] })
  | .runCell run_all_cells ref_id =>
      if run_all_cells then
        .ok (.runCell run_all_cells ref_id,
             { tree := markAllRunning d.tree, gui := d.gui })
      else
        match findPath ref_id d.tree with
        | none => .error .referenceNotFound
        | some p =>
            match updateAt (setRunning true) d.tree p with
            | some t2 =>
                .ok (.runCell run_all_cells ref_id,
                     { tree := t2, gui := d.gui ++ [.update_cell ref_id] })
            | none => .error .internalError
  | .openNotebook notebook_name =>
      .ok (.openNotebook notebook_name,
           { tree := .leaf { id := 0, textbuf := notebook_name,
                             cell_type := .textcell, running := false,
                             variables_referenced := [] },
             gui := d.gui ++ [.document_replaced] })
  | .insertText ref_id insert_pos text _ =>
      match findPath ref_id d.tree with
      | none => .error .referenceNotFound
      | some p =>
          match getAt d.tree p with
          | none => .error .internalError
          | some s =>
              if insert_pos ≤ s.cell.textbuf.length then
                match updateAt
                    (setTextbuf (strInsert s.cell.textbuf insert_pos text))
                    d.tree p with
                | some t2 =>
                    .ok (.insertText ref_id insert_pos text p,
                         { tree := t2, gui := d.gui })
                | none => .error .internalError
              else .error .invalidRange
  | .completeText ref_id insert_pos text alternative_ _ =>
      match findPath ref_id d.tree with
      | none => .error .referenceNotFound
      | some p =>
          match getAt d.tree p with
          | none => .error .internalError
          | some s =>
              if insert_pos ≤ s.cell.textbuf.length then
                match updateAt
                    (setTextbuf (strInsert s.cell.textbuf insert_pos text))
                    d.tree p with
                | some t2 =>
                    .ok (.completeText ref_id insert_pos text alternative_ p,
                         { tree := t2, gui := d.gui ++ [.update_cell ref_id] })
                | none => .error .internalError
              else .error .invalidRange
  | .eraseText ref_id from_pos to_pos _ _ =>
      match findPath ref_id d.tree with
      | none => .error .referenceNotFound
      | some p =>
          match getAt d.tree p with
          | none => .error .internalError
          | some s =>
              if from_pos ≤ to_pos ∧ to_pos ≤ s.cell.textbuf.length then
                match updateAt
                    (setTextbuf (strErase s.cell.textbuf from_pos to_pos))
                    d.tree p with
                | some t2 =>
                    .ok (.eraseText ref_id from_pos to_pos
                           (strSub s.cell.textbuf from_pos to_pos) p,
                         { tree := t2, gui := d.gui })
                | none => .error .internalError
              else .error .invalidRange

/-- Modelled from the spec: the `revert` member-function bodies are not in
the source snapshot.  Each branch undoes the most recent `exec` using the
state the header declares for the purpose, and issues the presentation
calls the spec requires (in particular, text-edit variants update the
presentation on revert even though their `exec` does not, spec §4.5).
Non-undoable variants are never reverted by the history; their branches
leave the document unchanged. -/
def revert (a : Action) (d : Doc) : Except ActionError (Action × Doc) :=
  match a with
  | .addCell newcell ref_id pos newref child_num is_replacement is_input_form =>
      if hp : newref = [] then .error .internalError
      else
        match removeChildAt d.tree newref.dropLast (newref.getLast hp) with
        | some (t2, _) =>
            .ok (.addCell newcell ref_id pos newref child_num
                   is_replacement is_input_form,
                 { tree := t2, gui := d.gui ++ [.remove_cell newcell.id] })
        | none => .error .internalError
  | .positionCursor ref_id pos fresh_id needed_new_cell_with_id newref =>
      match needed_new_cell_with_id with
      | none =>
          .ok (.positionCursor ref_id pos fresh_id none newref,
               { tree := d.tree, gui := d.gui ++ [.position_cursor ref_id] })
      | some nid =>
          if hp : newref = [] then .error .internalError
          else
            match removeChildAt d.tree newref.dropLast (newref.getLast hp) with
            | some (t2, _) =>
                .ok (.positionCursor ref_id pos fresh_id none [],
                     { tree := t2, gui := d.gui ++ [.remove_cell nid] })
            | none => .error .internalError
  | .setRunStatus ref_id new_running was_running this_cell =>
      match updateAt (setRunning was_running) d.tree this_cell with
      | some t2 =>
          .ok (.setRunStatus ref_id new_running was_running this_cell,
               { tree := t2, gui := d.gui ++ [.update_cell ref_id] })
      | none => .error .internalError
  | .setVariableList ref_id new_variables this_cell =>
      match getAt d.tree this_cell with
      | none => .error .internalError
      | some s =>
          match updateAt (setVariables new_variables) d.tree this_cell with
          | some t2 =>
              .ok (.setVariableList ref_id s.cell.variables_referenced this_cell,
                   { tree := t2, gui := d.gui })
          | none => .error .internalError
  | .removeCell ref_id removed_tree pp n =>
      match removed_tree with
      | none => .error .internalError
      | some sub =>
          match insertChildAt d.tree pp n sub with
          | some t2 =>
              .ok (.removeCell ref_id (some sub) pp n,
                   { tree := t2, gui := d.gui ++ [.add_cell ref_id] })
          | none => .error .internalError
  | .replaceCell ref_id => .ok (.replaceCell ref_id, d)
  | .splitCell ref_id newref => .ok (.splitCell ref_id newref, d)
  | .runCell run_all_cells ref_id => .ok (.runCell run_all_cells ref_id, d)
  | .openNotebook notebook_name => .ok (.openNotebook notebook_name, d)
  | .insertText ref_id insert_pos text this_cell =>
      match getAt d.tree this_cell with
      | none => .error .internalError
      | some s =>
          match updateAt
              (setTextbuf (strErase s.cell.textbuf insert_pos
                             (insert_pos + text.length)))
              d.tree this_cell with
          | some t2 =>
              .ok (.insertText ref_id insert_pos text this_cell,
                   { tree := t2, gui := d.gui ++ [.update_cell ref_id] })
          | none => .error .internalError
  | .completeText ref_id insert_pos text alternative_ this_cell =>
      match getAt d.tree this_cell with
      | none => .error .internalError
      | some s =>
          match updateAt
              (setTextbuf (strErase s.cell.textbuf insert_pos
                             (insert_pos + text.length)))
              d.tree this_cell with
          | some t2 =>
              .ok (.completeText ref_id insert_pos text alternative_ this_cell,
                   { tree := t2, gui := d.gui ++ [.update_cell ref_id] })
          | none => .error .internalError
  | .eraseText ref_id from_pos to_pos removed_text this_cell =>
      match getAt d.tree this_cell with
      | none => .error .internalError
      | some s =>
          match updateAt
              (setTextbuf (strInsert s.cell.textbuf from_pos removed_text))
              d.tree this_cell with
          | some t2 =>
              .ok (.eraseText ref_id from_pos to_pos removed_text this_cell,
                   { tree := t2, gui := d.gui ++ [.update_cell ref_id] })
          | none => .error .internalError

/-! ### Generic lemmas about paths, `getAt` and `updateAt` -/

theorem list_set_self_of_getElem {α : Type _} :
    ∀ (l : List α) (i : Nat) (a : α), l[i]? = some a → l.set i a = l
  | [], i, a, h => by simp at h
  | x :: xs, 0, a, h => by
      simp only [List.getElem?_cons_zero, Option.some.injEq] at h
      simp [h]
  | x :: xs, i + 1, a, h => by
      simp only [List.getElem?_cons_succ] at h
      simp [List.set, list_set_self_of_getElem xs i a h]

theorem list_insertIdx_eraseIdx_self {α : Type _} :
    ∀ (l : List α) (n : Nat) (a : α), l[n]? = some a →
      (l.eraseIdx n).insertIdx n a = l
  | [], n, a, h => by simp at h
  | x :: xs, 0, a, h => by
      simp only [List.getElem?_cons_zero, Option.some.injEq] at h
      simp [h]
  | x :: xs, n + 1, a, h => by
      simp only [List.getElem?_cons_succ] at h
      simp [List.eraseIdx, List.insertIdx_succ_cons,
            list_insertIdx_eraseIdx_self xs n a h]

theorem getAt_append (pp : TreePath) (n : Nat) :
    ∀ t : DTree, getAt t (pp ++ [n]) =
      (getAt t pp).bind (fun s => (DTree.children s)[n]?) := by
  induction pp with
  | nil =>
      intro t
      cases t with
      | node c ch =>
          cases h : ch[n]? <;>
            simp [getAt, DTree.children, h]
  | cons i pp ih =>
      intro t
      cases t with
      | node c ch =>
          cases h : ch[i]? <;>
            simp [getAt, h, ih]

theorem getAt_parent_of_append {t : DTree} {pp : TreePath} {n : Nat} {s : DTree}
    (h : getAt t (pp ++ [n]) = some s) :
    ∃ parent, getAt t pp = some parent ∧ (DTree.children parent)[n]? = some s := by
  rw [getAt_append] at h
  cases hp : getAt t pp with
  | none => rw [hp] at h; simp at h
  | some parent =>
      rw [hp] at h
      exact ⟨parent, rfl, h⟩

theorem getAt_nil (t : DTree) : getAt t [] = some t := by
  cases t
  rfl

theorem updateAt_nil (f : DTree → DTree) (t : DTree) :
    updateAt f t [] = some (f t) := by
  cases t
  rfl

theorem getAt_cons (c : DataCell) (ch : List DTree) (i : Nat) (p : TreePath) :
    getAt (.node c ch) (i :: p) =
      match ch[i]? with
      | some child => getAt child p
      | none => none := rfl

theorem updateAt_cons (f : DTree → DTree) (c : DataCell) (ch : List DTree)
    (i : Nat) (p : TreePath) :
    updateAt f (.node c ch) (i :: p) =
      match ch[i]? with
      | some child =>
          match updateAt f child p with
          | some child2 => some (.node c (ch.set i child2))
          | none => none
      | none => none := rfl

theorem updateAt_spec (f : DTree → DTree) :
    ∀ (pp : TreePath) (t t2 : DTree), updateAt f t pp = some t2 →
      ∃ s, getAt t pp = some s ∧ getAt t2 pp = some (f s) := by
  intro pp
  induction pp with
  | nil =>
      intro t t2 h
      rw [updateAt_nil, Option.some.injEq] at h
      exact ⟨t, getAt_nil t, by rw [← h, getAt_nil]⟩
  | cons i pp ih =>
      intro t t2 h
      cases t with
      | node c ch =>
          rw [updateAt_cons] at h
          split at h
          next child h1 =>
            split at h
            next child2 h2 =>
              simp only [Option.some.injEq] at h
              obtain ⟨s, hs1, hs2⟩ := ih child child2 h2
              have hlen : i < ch.length := (List.getElem?_eq_some.mp h1).1
              have hset : (ch.set i child2)[i]? = some child2 := by
                simp [List.getElem?_set_self, hlen]
              refine ⟨s, ?_, ?_⟩
              · simp [getAt_cons, h1, hs1]
              · rw [← h]
                simp [getAt_cons, hset, hs2]
            next h2 => cases h
          next h1 => cases h

theorem updateAt_of_getAt (f : DTree → DTree) :
    ∀ (pp : TreePath) (t s : DTree), getAt t pp = some s →
      ∃ t2, updateAt f t pp = some t2 := by
  intro pp
  induction pp with
  | nil => intro t s _; exact ⟨f t, updateAt_nil f t⟩
  | cons i pp ih =>
      intro t s h
      cases t with
      | node c ch =>
          rw [getAt_cons] at h
          split at h
          next child h1 =>
            obtain ⟨child2, hc2⟩ := ih child s h
            exact ⟨.node c (ch.set i child2), by simp [updateAt_cons, h1, hc2]⟩
          next h1 => cases h

theorem updateAt_inverse (f g : DTree → DTree) :
    ∀ (pp : TreePath) (t s t2 : DTree), getAt t pp = some s →
      updateAt f t pp = some t2 → g (f s) = s →
      updateAt g t2 pp = some t := by
  intro pp
  induction pp with
  | nil =>
      intro t s t2 hget hupd hgf
      rw [getAt_nil, Option.some.injEq] at hget
      rw [updateAt_nil, Option.some.injEq] at hupd
      subst hget
      subst hupd
      rw [updateAt_nil, hgf]
  | cons i pp ih =>
      intro t s t2 hget hupd hgf
      cases t with
      | node c ch =>
          rw [getAt_cons] at hget
          rw [updateAt_cons] at hupd
          split at hupd
          next child h1 =>
            split at hupd
            next child2 h2 =>
              simp only [Option.some.injEq] at hupd
              simp only [h1] at hget
              have hlen : i < ch.length := (List.getElem?_eq_some.mp h1).1
              have hrec : updateAt g child2 pp = some child :=
                ih child s child2 hget h2 hgf
              have hset : (ch.set i child2)[i]? = some child2 := by
                simp [List.getElem?_set_self, hlen]
              rw [← hupd]
              simp [updateAt_cons, hset, hrec, List.set_set,
                    list_set_self_of_getElem ch i child h1]
            next h2 => cases hupd
          next h1 => cases hupd

theorem removeChildAt_eq_some {t t2 sub : DTree} {pp : TreePath} {n : Nat} :
    removeChildAt t pp n = some (t2, sub) ↔
      getAt t (pp ++ [n]) = some sub ∧
      updateAt (removeChild n) t pp = some t2 := by
  unfold removeChildAt
  cases h1 : getAt t (pp ++ [n]) <;>
    cases h2 : updateAt (removeChild n) t pp <;>
      simp [and_comm]

theorem removeChildAt_insertChildAt {t t2 sub : DTree} {pp : TreePath} {n : Nat}
    (h : removeChildAt t pp n = some (t2, sub)) :
    insertChildAt t2 pp n sub = some t := by
  rw [removeChildAt_eq_some] at h
  obtain ⟨h1, h2⟩ := h
  obtain ⟨parent, hpar, hch⟩ := getAt_parent_of_append h1
  refine updateAt_inverse (removeChild n) (insertChild n sub) pp t parent t2
    hpar h2 ?_
  cases parent with
  | node c ch =>
      simp only [DTree.children] at hch
      simp [removeChild, insertChild,
            list_insertIdx_eraseIdx_self ch n sub hch]

theorem insertChildAt_removeChildAt {t t2 sub : DTree} {pp : TreePath} {n : Nat}
    {parent : DTree}
    (hpar : getAt t pp = some parent)
    (hn : n ≤ (DTree.children parent).length)
    (h : insertChildAt t pp n sub = some t2) :
    removeChildAt t2 pp n = some (t, sub) := by
  unfold insertChildAt at h
  obtain ⟨s, hs1, hs2⟩ := updateAt_spec (insertChild n sub) pp t t2 h
  rw [hpar, Option.some.injEq] at hs1
  subst hs1
  rw [removeChildAt_eq_some]
  constructor
  · rw [getAt_append, hs2]
    cases parent with
    | node c ch =>
        simp only [DTree.children] at hn
        simp only [insertChild, DTree.children, Option.bind]
        rw [List.getElem?_eq_some]
        refine ⟨?_, List.getElem_insertIdx_self ch sub n hn⟩
        rw [List.length_insertIdx _ _ hn]
        omega
  · refine updateAt_inverse (insertChild n sub) (removeChild n) pp t parent t2
      hpar h ?_
    cases parent with
    | node c ch => simp [removeChild, insertChild, List.eraseIdx_insertIdx]

/-- The undo/redo stack of spec §3: executed undoable commands plus a
cursor; entries after the cursor are redoable. -/
structure History where
  stack  : List Action
  cursor : Nat

/-- Modelled from the spec (§2, §3): execute an action against the document;
if it succeeds and reports itself undoable, push it (truncating the
redoable tail); a non-undoable or failed action leaves the history — both
cursor and stack — untouched, and a failed action also leaves the document
untouched. -/
def perform (a : Action) (d : Doc) (h : History) : Doc × History :=
  match exec a d with
  | .error _ => (d, h)
  | .ok (a2, d2) =>
      if a2.undoable then
        (d2, { stack := h.stack.take h.cursor ++ [a2], cursor := h.cursor + 1 })
      else (d2, h)

/-! ### String and cell-payload lemmas for the text commands -/

theorem list_insert_of_erase (l : List Char) (f t : Nat)
    (hft : f ≤ t) (htl : t ≤ l.length) :
    (l.take f ++ l.drop t).take f ++ (l.drop f).take (t - f) ++
      (l.take f ++ l.drop t).drop f = l := by
  have hfl : f ≤ l.length := le_trans hft htl
  have h1 : (l.take f ++ l.drop t).take f = l.take f := by
    rw [List.take_append_eq_append_take, List.length_take, min_eq_left hfl,
        Nat.sub_self, List.take_zero, List.append_nil, List.take_take, min_self]
  have h2 : (l.take f ++ l.drop t).drop f = l.drop t := by
    rw [List.drop_append_eq_append_drop, List.length_take, min_eq_left hfl,
        Nat.sub_self, List.drop_zero]
    have e1 : (l.take f).drop f = [] := by
      apply List.drop_eq_nil_of_le
      rw [List.length_take]
      omega
    rw [e1, List.nil_append]
  rw [h1, h2]
  have h3 : l.drop t = (l.drop f).drop (t - f) := by
    rw [List.drop_drop]
    congr 1
    omega
  rw [h3, List.append_assoc, List.take_append_drop, List.take_append_drop]

theorem list_erase_of_insert (l m : List Char) (pos : Nat)
    (hpos : pos ≤ l.length) :
    (l.take pos ++ m ++ l.drop pos).take pos ++
      (l.take pos ++ m ++ l.drop pos).drop (pos + m.length) = l := by
  have h1 : (l.take pos ++ m ++ l.drop pos).take pos = l.take pos := by
    rw [List.append_assoc, List.take_append_eq_append_take, List.length_take,
        min_eq_left hpos, Nat.sub_self, List.take_zero, List.append_nil,
        List.take_take, min_self]
  have h2 : (l.take pos ++ m ++ l.drop pos).drop (pos + m.length) =
      l.drop pos := by
    rw [List.append_assoc, List.drop_append_eq_append_drop, List.length_take,
        min_eq_left hpos]
    have e1 : (l.take pos).drop (pos + m.length) = [] := by
      apply List.drop_eq_nil_of_le
      rw [List.length_take]
      omega
    rw [e1, List.nil_append, List.drop_append_eq_append_drop]
    have e2 : m.drop (pos + m.length - pos) = [] := by
      apply List.drop_eq_nil_of_le
      omega
    rw [e2, List.nil_append]
    have e3 : pos + m.length - pos - m.length = 0 := by omega
    rw [e3, List.drop_zero]
  rw [h1, h2, List.take_append_drop]

/-- Reinserting the erased substring at the erase point restores the
original string (`EraseText` undo). -/
theorem strInsert_strErase_strSub (sb : String) (f t : Nat)
    (hft : f ≤ t) (htl : t ≤ sb.length) :
    strInsert (strErase sb f t) f (strSub sb f t) = sb := by
  cases sb with
  | mk l =>
      have htl2 : t ≤ l.length := htl
      show String.mk _ = String.mk l
      exact congrArg String.mk (list_insert_of_erase l f t hft htl2)

/-- Erasing the inserted range removes exactly the inserted string
(`InsertText` undo). -/
theorem strErase_strInsert (sb txt : String) (pos : Nat)
    (hpos : pos ≤ sb.length) :
    strErase (strInsert sb pos txt) pos (pos + txt.length) = sb := by
  cases sb with
  | mk l =>
      have hpos2 : pos ≤ l.length := hpos
      show String.mk _ = String.mk l
      exact congrArg String.mk (list_erase_of_insert l txt.data pos hpos2)

theorem textbuf_setTextbuf (x : String) (s : DTree) :
    (DTree.cell (setTextbuf x s)).textbuf = x := by
  cases s
  rfl

theorem setTextbuf_setTextbuf (x y : String) (s : DTree) :
    setTextbuf x (setTextbuf y s) = setTextbuf x s := by
  cases s
  rfl

theorem setTextbuf_self (s : DTree) :
    setTextbuf (DTree.cell s).textbuf s = s := by
  cases s
  rfl

theorem variables_setVariables (vs : List String) (s : DTree) :
    (DTree.cell (setVariables vs s)).variables_referenced = vs := by
  cases s
  rfl

theorem setVariables_setVariables (vs ws : List String) (s : DTree) :
    setVariables vs (setVariables ws s) = setVariables vs s := by
  cases s
  rfl

theorem setVariables_self (s : DTree) :
    setVariables (DTree.cell s).variables_referenced s = s := by
  cases s
  rfl

/-! ### Sample documents used by the witnesses -/

def rootCell : DataCell :=
  { id := 0, textbuf := "", cell_type := .textcell, running := false,
    variables_referenced := [] }

def cellA : DataCell :=
  { id := 1, textbuf := "ab", cell_type := .input, running := false,
    variables_referenced := ["x"] }

def cellB : DataCell :=
  { id := 2, textbuf := "b", cell_type := .input, running := false,
    variables_referenced := [] }

def cellC : DataCell :=
  { id := 3, textbuf := "c", cell_type := .input, running := false,
    variables_referenced := [] }

/-- A document whose root has three children with ids 1, 2, 3. -/
def sampleDoc : Doc :=
  { tree := .node rootCell [.leaf cellA, .leaf cellB, .leaf cellC], gui := [] }

/-! ### Claims C5 and C6: the text-editing commands -/

/-- C5: for an in-bounds range `[from, to)`, `ActionEraseText::execute`
removes exactly that substring from the referenced cell's content, stores
the removed text in `removed_text`, and `revert` reinserts it so the
content equals the pre-execute string exactly (the whole tree is restored);
`revert`, unlike `execute`, issues a presentation update. -/
theorem eraseText_roundtrip
    (d : Doc) (ref_id from_pos to_pos : Nat) (rt0 : String)
    (p0 p : TreePath) (s : DTree)
    (hfind : findPath ref_id d.tree = some p)
    (hget : getAt d.tree p = some s)
    (hft : from_pos ≤ to_pos)
    (htl : to_pos ≤ (DTree.cell s).textbuf.length) :
    ∃ t2,
      exec (.eraseText ref_id from_pos to_pos rt0 p0) d =
        .ok (.eraseText ref_id from_pos to_pos
               (strSub (DTree.cell s).textbuf from_pos to_pos) p,
             { tree := t2, gui := d.gui }) ∧
      getAt t2 p =
        some (setTextbuf (strErase (DTree.cell s).textbuf from_pos to_pos) s) ∧
      revert (.eraseText ref_id from_pos to_pos
               (strSub (DTree.cell s).textbuf from_pos to_pos) p)
          { tree := t2, gui := d.gui } =
        .ok (.eraseText ref_id from_pos to_pos
               (strSub (DTree.cell s).textbuf from_pos to_pos) p,
             { tree := d.tree, gui := d.gui ++ [.update_cell ref_id] }) := by
  obtain ⟨t2, ht2⟩ :=
    updateAt_of_getAt
      (setTextbuf (strErase (DTree.cell s).textbuf from_pos to_pos))
      p d.tree s hget
  have hget2 : getAt t2 p =
      some (setTextbuf (strErase (DTree.cell s).textbuf from_pos to_pos) s) := by
    obtain ⟨s2, hs1, hs2⟩ := updateAt_spec _ p d.tree t2 ht2
    rw [hget, Option.some.injEq] at hs1
    rw [← hs1] at hs2
    exact hs2
  have hexec : exec (.eraseText ref_id from_pos to_pos rt0 p0) d =
      .ok (.eraseText ref_id from_pos to_pos
             (strSub (DTree.cell s).textbuf from_pos to_pos) p,
           { tree := t2, gui := d.gui }) := by
    simp only [exec, hfind, hget]
    rw [if_pos ⟨hft, htl⟩]
    simp only [ht2]
  have hrevert : revert (.eraseText ref_id from_pos to_pos
               (strSub (DTree.cell s).textbuf from_pos to_pos) p)
          { tree := t2, gui := d.gui } =
        .ok (.eraseText ref_id from_pos to_pos
               (strSub (DTree.cell s).textbuf from_pos to_pos) p,
             { tree := d.tree, gui := d.gui ++ [.update_cell ref_id] }) := by
    have hcat : strInsert
        (DTree.cell (setTextbuf (strErase (DTree.cell s).textbuf from_pos to_pos) s)).textbuf
        from_pos (strSub (DTree.cell s).textbuf from_pos to_pos) =
        (DTree.cell s).textbuf := by
      rw [textbuf_setTextbuf]
      exact strInsert_strErase_strSub (DTree.cell s).textbuf from_pos to_pos
        hft htl
    have hinv : updateAt (setTextbuf (DTree.cell s).textbuf) t2 p =
        some d.tree := by
      refine updateAt_inverse _ _ p d.tree s t2 hget ht2 ?_
      rw [setTextbuf_setTextbuf, setTextbuf_self]
    simp only [revert, hget2]
    rw [hcat]
    simp only [hinv]
  exact ⟨t2, hexec, hget2, hrevert⟩

theorem eraseText_roundtrip_witness :
    (strSub "ab" 0 1 = "a" ∧ strErase "ab" 0 1 = "b") ∧
    ∃ t2,
      exec (.eraseText 1 0 1 "" []) sampleDoc =
        .ok (.eraseText 1 0 1
               (strSub (DTree.cell (DTree.leaf cellA)).textbuf 0 1) [0],
             { tree := t2, gui := sampleDoc.gui }) ∧
      getAt t2 [0] =
        some (setTextbuf (strErase (DTree.cell (DTree.leaf cellA)).textbuf 0 1)
                (DTree.leaf cellA)) ∧
      revert (.eraseText 1 0 1
               (strSub (DTree.cell (DTree.leaf cellA)).textbuf 0 1) [0])
          { tree := t2, gui := sampleDoc.gui } =
        .ok (.eraseText 1 0 1
               (strSub (DTree.cell (DTree.leaf cellA)).textbuf 0 1) [0],
             { tree := sampleDoc.tree,
               gui := sampleDoc.gui ++ [.update_cell 1] }) :=
  ⟨⟨rfl, rfl⟩,
   eraseText_roundtrip sampleDoc 1 0 1 "" [] [0] (.leaf cellA)
     rfl rfl (by decide) (by decide)⟩

/-- C6: `ActionInsertText::execute` mutates only the document tree (its
result carries the unchanged presentation log), while `revert` both
restores the tree content exactly and issues one presentation update
call. -/
theorem insertText_frame_roundtrip
    (d : Doc) (ref_id insert_pos : Nat) (txt : String)
    (p0 p : TreePath) (s : DTree)
    (hfind : findPath ref_id d.tree = some p)
    (hget : getAt d.tree p = some s)
    (hpos : insert_pos ≤ (DTree.cell s).textbuf.length) :
    ∃ t2,
      exec (.insertText ref_id insert_pos txt p0) d =
        .ok (.insertText ref_id insert_pos txt p,
             { tree := t2, gui := d.gui }) ∧
      getAt t2 p =
        some (setTextbuf (strInsert (DTree.cell s).textbuf insert_pos txt) s) ∧
      revert (.insertText ref_id insert_pos txt p)
          { tree := t2, gui := d.gui } =
        .ok (.insertText ref_id insert_pos txt p,
             { tree := d.tree, gui := d.gui ++ [.update_cell ref_id] }) := by
  obtain ⟨t2, ht2⟩ :=
    updateAt_of_getAt
      (setTextbuf (strInsert (DTree.cell s).textbuf insert_pos txt))
      p d.tree s hget
  have hget2 : getAt t2 p =
      some (setTextbuf (strInsert (DTree.cell s).textbuf insert_pos txt) s) := by
    obtain ⟨s2, hs1, hs2⟩ := updateAt_spec _ p d.tree t2 ht2
    rw [hget, Option.some.injEq] at hs1
    rw [← hs1] at hs2
    exact hs2
  have hexec : exec (.insertText ref_id insert_pos txt p0) d =
      .ok (.insertText ref_id insert_pos txt p,
           { tree := t2, gui := d.gui }) := by
    simp only [exec, hfind, hget]
    rw [if_pos hpos]
    simp only [ht2]
  have hrevert : revert (.insertText ref_id insert_pos txt p)
          { tree := t2, gui := d.gui } =
        .ok (.insertText ref_id insert_pos txt p,
             { tree := d.tree, gui := d.gui ++ [.update_cell ref_id] }) := by
    have hcat : strErase
        (DTree.cell (setTextbuf (strInsert (DTree.cell s).textbuf insert_pos txt) s)).textbuf
        insert_pos (insert_pos + txt.length) = (DTree.cell s).textbuf := by
      rw [textbuf_setTextbuf]
      exact strErase_strInsert (DTree.cell s).textbuf txt insert_pos hpos
    have hinv : updateAt (setTextbuf (DTree.cell s).textbuf) t2 p =
        some d.tree := by
      refine updateAt_inverse _ _ p d.tree s t2 hget ht2 ?_
      rw [setTextbuf_setTextbuf, setTextbuf_self]
    simp only [revert, hget2]
    rw [hcat]
    simp only [hinv]
  exact ⟨t2, hexec, hget2, hrevert⟩

theorem insertText_frame_roundtrip_witness :
    (strInsert "ab" 1 "Z" = "aZb") ∧
    ∃ t2,
      exec (.insertText 1 1 "Z" []) sampleDoc =
        .ok (.insertText 1 1 "Z" [0],
             { tree := t2, gui := sampleDoc.gui }) ∧
      getAt t2 [0] =
        some (setTextbuf (strInsert (DTree.cell (DTree.leaf cellA)).textbuf 1 "Z")
                (DTree.leaf cellA)) ∧
      revert (.insertText 1 1 "Z" [0])
          { tree := t2, gui := sampleDoc.gui } =
        .ok (.insertText 1 1 "Z" [0],
             { tree := sampleDoc.tree,
               gui := sampleDoc.gui ++ [.update_cell 1] }) :=
  ⟨rfl,
   insertText_frame_roundtrip sampleDoc 1 1 "Z" [] [0] (.leaf cellA)
     rfl rfl (by decide)⟩

/-! ### Claim C4: SetVariableList -/

/-- C4: `ActionSetVariableList::execute` replaces the referenced cell's set
of variable names with the new set and stores the previous set in its
single `new_variables_` field (swap), and `revert` restores exactly that
previous set, so the whole tree equals the pre-execute tree. -/
theorem setVariableList_roundtrip
    (d : Doc) (ref_id : Nat) (vs : List String) (p0 p : TreePath) (s : DTree)
    (hfind : findPath ref_id d.tree = some p)
    (hget : getAt d.tree p = some s) :
    ∃ t2,
      exec (.setVariableList ref_id vs p0) d =
        .ok (.setVariableList ref_id (DTree.cell s).variables_referenced p,
             { tree := t2, gui := d.gui }) ∧
      getAt t2 p = some (setVariables vs s) ∧
      revert (.setVariableList ref_id (DTree.cell s).variables_referenced p)
          { tree := t2, gui := d.gui } =
        .ok (.setVariableList ref_id vs p,
             { tree := d.tree, gui := d.gui }) := by
  obtain ⟨t2, ht2⟩ := updateAt_of_getAt (setVariables vs) p d.tree s hget
  have hget2 : getAt t2 p = some (setVariables vs s) := by
    obtain ⟨s2, hs1, hs2⟩ := updateAt_spec _ p d.tree t2 ht2
    rw [hget, Option.some.injEq] at hs1
    rw [← hs1] at hs2
    exact hs2
  have hexec : exec (.setVariableList ref_id vs p0) d =
      .ok (.setVariableList ref_id (DTree.cell s).variables_referenced p,
           { tree := t2, gui := d.gui }) := by
    simp only [exec, hfind, hget, ht2]
  have hinv : updateAt (setVariables (DTree.cell s).variables_referenced) t2 p =
      some d.tree := by
    refine updateAt_inverse _ _ p d.tree s t2 hget ht2 ?_
    rw [setVariables_setVariables, setVariables_self]
  have hrevert : revert (.setVariableList ref_id
          (DTree.cell s).variables_referenced p)
          { tree := t2, gui := d.gui } =
        .ok (.setVariableList ref_id vs p,
             { tree := d.tree, gui := d.gui }) := by
    simp only [revert, hget2, hinv, variables_setVariables]
  exact ⟨t2, hexec, hget2, hrevert⟩

theorem setVariableList_roundtrip_witness :
    ∃ t2,
      exec (.setVariableList 1 ["y"] []) sampleDoc =
        .ok (.setVariableList 1
               (DTree.cell (DTree.leaf cellA)).variables_referenced [0],
             { tree := t2, gui := sampleDoc.gui }) ∧
      getAt t2 [0] = some (setVariables ["y"] (DTree.leaf cellA)) ∧
      revert (.setVariableList 1
               (DTree.cell (DTree.leaf cellA)).variables_referenced [0])
          { tree := t2, gui := sampleDoc.gui } =
        .ok (.setVariableList 1 ["y"] [0],
             { tree := sampleDoc.tree, gui := sampleDoc.gui }) :=
  setVariableList_roundtrip sampleDoc 1 ["y"] [] [0] (.leaf cellA) rfl rfl

/-! ### Claim C1: RemoveCell -/

/-- C1: for a cell that is the `n`-th child of its parent,
`ActionRemoveCell::execute` detaches the cell with its entire subtree,
storing the detached subtree and the exact (parent, child-index)
coordinate, and `revert` reinserts the stored subtree at exactly that
coordinate, restoring the pre-execute tree — the cell is again at index
`n` and all untouched siblings keep their original order. -/
theorem removeCell_roundtrip
    (d : Doc) (ref_id : Nat) (rt0 : Option DTree) (pp0 : TreePath) (n0 : Nat)
    (pp : TreePath) (n : Nat) (parent sub : DTree)
    (hfind : findPath ref_id d.tree = some (pp ++ [n]))
    (hpar : getAt d.tree pp = some parent)
    (hch : (DTree.children parent)[n]? = some sub) :
    ∃ t2,
      exec (.removeCell ref_id rt0 pp0 n0) d =
        .ok (.removeCell ref_id (some sub) pp n,
             { tree := t2, gui := d.gui ++ [.remove_cell ref_id] }) ∧
      getAt t2 pp = some (removeChild n parent) ∧
      revert (.removeCell ref_id (some sub) pp n)
          { tree := t2, gui := d.gui ++ [.remove_cell ref_id] } =
        .ok (.removeCell ref_id (some sub) pp n,
             { tree := d.tree,
               gui := (d.gui ++ [.remove_cell ref_id]) ++ [.add_cell ref_id] }) := by
  have hsub : getAt d.tree (pp ++ [n]) = some sub := by
    rw [getAt_append, hpar]
    simpa using hch
  obtain ⟨t2, ht2⟩ := updateAt_of_getAt (removeChild n) pp d.tree parent hpar
  have hrem : removeChildAt d.tree pp n = some (t2, sub) :=
    removeChildAt_eq_some.mpr ⟨hsub, ht2⟩
  have hget2 : getAt t2 pp = some (removeChild n parent) := by
    obtain ⟨s2, hs1, hs2⟩ := updateAt_spec _ pp d.tree t2 ht2
    rw [hpar, Option.some.injEq] at hs1
    rw [← hs1] at hs2
    exact hs2
  have hexec : exec (.removeCell ref_id rt0 pp0 n0) d =
      .ok (.removeCell ref_id (some sub) pp n,
           { tree := t2, gui := d.gui ++ [.remove_cell ref_id] }) := by
    simp only [exec, hfind]
    rw [dif_neg (by simp : ¬(pp ++ [n] = []))]
    simp only [List.dropLast_concat, List.getLast_concat, hrem]
  have hins : insertChildAt t2 pp n sub = some d.tree :=
    removeChildAt_insertChildAt hrem
  have hrevert : revert (.removeCell ref_id (some sub) pp n)
          { tree := t2, gui := d.gui ++ [.remove_cell ref_id] } =
        .ok (.removeCell ref_id (some sub) pp n,
             { tree := d.tree,
               gui := (d.gui ++ [.remove_cell ref_id]) ++ [.add_cell ref_id] }) := by
    simp only [revert, hins]
  exact ⟨t2, hexec, hget2, hrevert⟩

theorem removeCell_roundtrip_witness :
    ∃ t2,
      exec (.removeCell 2 none [] 0) sampleDoc =
        .ok (.removeCell 2 (some (.leaf cellB)) [] 1,
             { tree := t2, gui := sampleDoc.gui ++ [.remove_cell 2] }) ∧
      getAt t2 [] = some (removeChild 1 sampleDoc.tree) ∧
      revert (.removeCell 2 (some (.leaf cellB)) [] 1)
          { tree := t2, gui := sampleDoc.gui ++ [.remove_cell 2] } =
        .ok (.removeCell 2 (some (.leaf cellB)) [] 1,
             { tree := sampleDoc.tree,
               gui := (sampleDoc.gui ++ [.remove_cell 2]) ++ [.add_cell 2] }) :=
  removeCell_roundtrip sampleDoc 2 none [] 0 [] 1 sampleDoc.tree
    (.leaf cellB) rfl rfl rfl

/-! ### Claim C8: PositionCursor `next` with no following input cell -/

/-- C8: `ActionPositionCursor::execute` with position `next`, when the
referenced cell has no following input cell, synthesizes exactly one new
input cell right after the reference and records its id in
`needed_new_cell_with_id`; `revert` removes exactly that synthesized cell,
restoring the pre-execute tree, so every pre-existing cell is untouched. -/
theorem positionCursor_next_synthesizes
    (d : Doc) (ref_id fid : Nat) (st0 : Option Nat) (p0 pp : TreePath)
    (i : Nat) (parent : DTree)
    (hfind : findPath ref_id d.tree = some (pp ++ [i]))
    (hpar : getAt d.tree pp = some parent)
    (hlt : i < (DTree.children parent).length)
    (hnoinput : firstInputAfter (DTree.children parent) (i + 1) = none) :
    ∃ t2,
      exec (.positionCursor ref_id .next fid st0 p0) d =
        .ok (.positionCursor ref_id .next fid (some fid) (pp ++ [i + 1]),
             { tree := t2,
               gui := d.gui ++ [.add_cell fid, .position_cursor fid] }) ∧
      insertChildAt d.tree pp (i + 1)
          (.leaf { id := fid, textbuf := "", cell_type := .input,
                   running := false, variables_referenced := [] }) = some t2 ∧
      revert (.positionCursor ref_id .next fid (some fid) (pp ++ [i + 1]))
          { tree := t2,
            gui := d.gui ++ [.add_cell fid, .position_cursor fid] } =
        .ok (.positionCursor ref_id .next fid none [],
             { tree := d.tree,
               gui := (d.gui ++ [.add_cell fid, .position_cursor fid]) ++
                        [.remove_cell fid] }) := by
  obtain ⟨t2, ht2⟩ :=
    updateAt_of_getAt
      (insertChild (i + 1)
        (.leaf { id := fid, textbuf := "", cell_type := .input,
                 running := false, variables_referenced := [] }))
      pp d.tree parent hpar
  have hins : insertChildAt d.tree pp (i + 1)
      (.leaf { id := fid, textbuf := "", cell_type := .input,
               running := false, variables_referenced := [] }) = some t2 := ht2
  have hexec : exec (.positionCursor ref_id .next fid st0 p0) d =
      .ok (.positionCursor ref_id .next fid (some fid) (pp ++ [i + 1]),
           { tree := t2,
             gui := d.gui ++ [.add_cell fid, .position_cursor fid] }) := by
    simp only [exec, hfind]
    rw [dif_neg (by simp : ¬(pp ++ [i] = []))]
    simp only [List.dropLast_concat, List.getLast_concat, hpar, hnoinput, hins]
  have hrm : removeChildAt t2 pp (i + 1) =
      some (d.tree,
        .leaf { id := fid, textbuf := "", cell_type := .input,
                running := false, variables_referenced := [] }) :=
    insertChildAt_removeChildAt hpar (by omega) hins
  have hrevert : revert (.positionCursor ref_id .next fid (some fid)
          (pp ++ [i + 1]))
          { tree := t2,
            gui := d.gui ++ [.add_cell fid, .position_cursor fid] } =
        .ok (.positionCursor ref_id .next fid none [],
             { tree := d.tree,
               gui := (d.gui ++ [.add_cell fid, .position_cursor fid]) ++
                        [.remove_cell fid] }) := by
    simp only [revert]
    rw [dif_neg (by simp : ¬(pp ++ [i + 1] = []))]
    simp only [List.dropLast_concat, List.getLast_concat, hrm]
  exact ⟨t2, hexec, hins, hrevert⟩

theorem positionCursor_next_synthesizes_witness :
    ∃ t2,
      exec (.positionCursor 3 .next 99 none []) sampleDoc =
        .ok (.positionCursor 3 .next 99 (some 99) ([] ++ [2 + 1]),
             { tree := t2,
               gui := sampleDoc.gui ++ [.add_cell 99, .position_cursor 99] }) ∧
      insertChildAt sampleDoc.tree [] (2 + 1)
          (.leaf { id := 99, textbuf := "", cell_type := .input,
                   running := false, variables_referenced := [] }) = some t2 ∧
      revert (.positionCursor 3 .next 99 (some 99) ([] ++ [2 + 1]))
          { tree := t2,
            gui := sampleDoc.gui ++ [.add_cell 99, .position_cursor 99] } =
        .ok (.positionCursor 3 .next 99 none [],
             { tree := sampleDoc.tree,
               gui := (sampleDoc.gui ++ [.add_cell 99, .position_cursor 99]) ++
                        [.remove_cell 99] }) :=
  positionCursor_next_synthesizes sampleDoc 3 99 none [] [] 2 sampleDoc.tree
    rfl rfl (by decide) rfl

/-! ### Claim C2: failed resolution raises ReferenceNotFound -/

/-- C2: for every command variant that performs the base-class resolution,
if `ref_id` no longer resolves to a live position, `execute` raises
`ReferenceNotFound` before performing any mutation: the document (tree and
presentation log) and the history are returned unchanged. -/
theorem execute_referenceNotFound
    (a : Action) (d : Doc) (h : History)
    (hu : a.usesRef = true)
    (hnf : findPath a.refId d.tree = none) :
    exec a d = .error .referenceNotFound ∧ perform a d h = (d, h) := by
  have hexec : exec a d = .error .referenceNotFound := by
    cases a with
    | addCell newcell ref_id pos newref child_num irep iinp =>
        simp only [Action.refId] at hnf
        simp [exec, hnf]
    | positionCursor ref_id pos fid st0 newref =>
        simp only [Action.refId] at hnf
        simp [exec, hnf]
    | setRunStatus ref_id nr wr tc =>
        simp only [Action.refId] at hnf
        simp [exec, hnf]
    | setVariableList ref_id vs tc =>
        simp only [Action.refId] at hnf
        simp [exec, hnf]
    | removeCell ref_id rt pp n =>
        simp only [Action.refId] at hnf
        simp [exec, hnf]
    | replaceCell ref_id =>
        simp only [Action.refId] at hnf
        simp [exec, hnf]
    | splitCell ref_id newref =>
        simp only [Action.refId] at hnf
        simp [exec, hnf]
    | runCell run_all_cells ref_id =>
        have hra : run_all_cells = false := by
          simpa [Action.usesRef] using hu
        subst hra
        simp only [Action.refId] at hnf
        simp [exec, hnf]
    | openNotebook notebook_name =>
        simp [Action.usesRef] at hu
    | insertText ref_id pos txt tc =>
        simp only [Action.refId] at hnf
        simp [exec, hnf]
    | completeText ref_id pos txt alt tc =>
        simp only [Action.refId] at hnf
        simp [exec, hnf]
    | eraseText ref_id f t rt tc =>
        simp only [Action.refId] at hnf
        simp [exec, hnf]
  refine ⟨hexec, ?_⟩
  simp [perform, hexec]

theorem execute_referenceNotFound_witness :
    exec (.removeCell 42 none [] 0) sampleDoc = .error .referenceNotFound ∧
    perform (.removeCell 42 none [] 0) sampleDoc { stack := [], cursor := 0 } =
      (sampleDoc, { stack := [], cursor := 0 }) :=
  execute_referenceNotFound (.removeCell 42 none [] 0) sampleDoc
    { stack := [], cursor := 0 } rfl rfl

/-! ### Claim C3: non-undoable variants never touch the history -/

/-- The five variants the spec lists as never appearing on the undo stack. -/
def isNonUndoableVariant : Action → Bool
  | .replaceCell _ => true
  | .setRunStatus .. => true
  | .setVariableList .. => true
  | .runCell .. => true
  | .openNotebook _ => true
  | _ => false

theorem isNonUndoableVariant_undoable {a : Action}
    (hv : isNonUndoableVariant a = true) : a.undoable = false := by
  cases a <;> simp_all [isNonUndoableVariant, Action.undoable]

theorem exec_preserves_nonUndoable {a : Action} {d : Doc} {a2 : Action}
    {d2 : Doc} (hv : isNonUndoableVariant a = true)
    (hex : exec a d = .ok (a2, d2)) : isNonUndoableVariant a2 = true := by
  cases a <;> simp [isNonUndoableVariant] at hv
  all_goals
    simp only [exec] at hex
  all_goals
    repeat' split at hex
  all_goals
    cases hex
  all_goals
    simp [isNonUndoableVariant]

/-- C3: executing a ReplaceCell, SetRunStatus, SetVariableList, RunCell or
Open command leaves the history — cursor and stack, hence stack length —
unchanged, because each of these variants reports `undoable()` false (the
base-class default for other commands is true), so `perform` never pushes
it. -/
theorem nonUndoable_leaves_history
    (a : Action) (d : Doc) (h : History)
    (hv : isNonUndoableVariant a = true) :
    a.undoable = false ∧ (perform a d h).2 = h := by
  refine ⟨isNonUndoableVariant_undoable hv, ?_⟩
  unfold perform
  cases hex : exec a d with
  | error e => rfl
  | ok pair =>
      obtain ⟨a2, d2⟩ := pair
      have h2 : a2.undoable = false :=
        isNonUndoableVariant_undoable (exec_preserves_nonUndoable hv hex)
      simp [h2]

theorem nonUndoable_leaves_history_witness :
    (Action.setRunStatus 1 true false []).undoable = false ∧
    (perform (.setRunStatus 1 true false []) sampleDoc
       { stack := [], cursor := 0 }).2 = { stack := [], cursor := 0 } :=
  nonUndoable_leaves_history (.setRunStatus 1 true false []) sampleDoc
    { stack := [], cursor := 0 } rfl

/-! ### Claim C7: AddCell undoability flags -/

/-- C7: `ActionAddCell::undoable` returns false exactly when the command
represents a silent replacement of existing content (`is_replacement`) or
an auto-created input placeholder owned by another cell's lifecycle
(`is_input_form`), and true otherwise. -/
theorem addCell_undoable_iff_flags
    (newcell : DataCell) (ref_id : Nat) (pos : AddCellPosition)
    (newref : TreePath) (child_num : Nat)
    ( is_replacement is_input_form : Bool) :
    (Action.addCell newcell ref_id pos newref child_num
        is_replacement is_input_form).undoable = false ↔
      (is_replacement = true ∨ is_input_form = true) := by
  cases is_replacement <;> cases is_input_form <;>
    simp [Action.undoable]

/-! ### `cadabra::install_prefix` (src/core/InstallPrefix.cc)

This source file is present in full.  The OS boundary is the two calls to
`wai_getExecutablePath`: the first (null buffer) returns `length`, the byte
length of the executable path (negative or zero on failure); the second
fills the buffer with the first `length` bytes of the path (`exe_path`
below) and sets `dirname_length`.  `malloc` success is a parameter.
`path[dirname_length] = 0` truncates the C string at `dirname_length`.  On
non-Windows builds the code then strips the assumed trailing "/bin" with
`ret.substr(0, ret.size() - 4)`; `ret.size() - 4` is `size_t` arithmetic,
so it wraps modulo 2^64 when `ret.size() < 4`, and `substr` clamps the
count to the string size. -/

def install_prefix (length : Int) (exe_path : String) (dirname_length : Nat)
    (malloc_ok : Bool) (win32 : Bool) : Except String String :=
  if length > 0 then
    if malloc_ok then
      let buffer := exe_path.data.take length.toNat
      let ret := String.mk (buffer.take dirname_length)
      let ret := if win32 then ret
        else String.mk (ret.data.take ((ret.data.length + 2 ^ 64 - 4) % 2 ^ 64))
      .ok ret
    else .error "Cannot determine installation path."
  else .ok ""

/-! ### Claims C9 and C10 -/

/-- C9: if the initial executable-path length query returns a value that is
not positive, `install_prefix` returns the empty string without raising any
error (the whole `if(length > 0)` block, including the only `throw`, is
skipped and the initially-empty `ret` is returned). -/
theorem install_prefix_nonpositive_returns_empty
    (length : Int) (exe_path : String) (dirname_length : Nat)
    (malloc_ok win32 : Bool)
    (hlen : length ≤ 0) :
    install_prefix length exe_path dirname_length malloc_ok win32 = .ok "" := by
  unfold install_prefix
  rw [if_neg (by omega)]

theorem install_prefix_nonpositive_returns_empty_witness :
    install_prefix (-1) "/usr/bin/cadabra2" 8 true false = .ok "" :=
  install_prefix_nonpositive_returns_empty (-1) "/usr/bin/cadabra2" 8 true
    false (by decide)

/-- C10: when the path query succeeds (`length > 0`, `malloc` ok, the buffer
holding the `length`-byte executable path, `dirname_length` within it), the
function returns the directory part — the path truncated at
`dirname_length` — with its last four characters removed on non-Windows
builds (the assumed trailing "/bin", so `4 ≤ dirname_length`), and the
directory part unmodified on Windows. -/
theorem install_prefix_returns_dirname_stripped
    (length : Int) (exe_path : String) (dirname_length : Nat) (win32 : Bool)
    (hlen : 0 < length)
    (hexe : exe_path.data.length = length.toNat)
    (hdl : dirname_length ≤ length.toNat)
    (h4 : 4 ≤ dirname_length)
    (hsmall : dirname_length < 2 ^ 64) :
    install_prefix length exe_path dirname_length true win32 =
      .ok (if win32 then String.mk (exe_path.data.take dirname_length)
           else String.mk (exe_path.data.take (dirname_length - 4))) := by
  unfold install_prefix
  rw [if_pos hlen, if_pos rfl]
  have hbuf : exe_path.data.take length.toNat = exe_path.data := by
    rw [← hexe, List.take_length]
  rw [hbuf]
  cases win32 with
  | true => simp
  | false =>
      simp only [Bool.false_eq_true, if_false]
      have hlen2 : (exe_path.data.take dirname_length).length = dirname_length := by
        rw [List.length_take, hexe]
        omega
      rw [hlen2]
      have hmod : (dirname_length + 2 ^ 64 - 4) % 2 ^ 64 = dirname_length - 4 := by
        have h1 : dirname_length + 2 ^ 64 - 4 = dirname_length - 4 + 2 ^ 64 := by
          omega
        rw [h1, Nat.add_mod_right]
        exact Nat.mod_eq_of_lt (by omega)
      rw [hmod, List.take_take]
      have hmin : min (dirname_length - 4) dirname_length = dirname_length - 4 := by
        omega
      rw [hmin]

theorem install_prefix_returns_dirname_stripped_witness :
    install_prefix 12 "/usr/bin/cdb" 8 true false =
      .ok (if false then String.mk ("/usr/bin/cdb".data.take 8)
           else String.mk ("/usr/bin/cdb".data.take (8 - 4))) ∧
    String.mk ("/usr/bin/cdb".data.take (8 - 4)) = "/usr" ∧
    String.mk ("/usr/bin/cdb".data.take 8) = "/usr/bin" :=
  ⟨ install_prefix_returns_dirname_stripped 12 "/usr/bin/cdb" 8 false
      (by decide) (by decide) (by decide) (by decide) (by norm_num),
    rfl, rfl⟩

end Cadabra
